import Mathlib

/-
Verification of the test-session state machine, pool filtering, progress
tracking, persistence serialization and history sorting of the question-bank
application (src/app.py), via a shallow embedding in Lean.

Conventions of the embedding:
- Python dicts used as finite maps become Lean functions into Option.
- Python sets of question-identifier strings become Finset String.
- Python str slicing text[:n] becomes taking the first n characters of the
  underlying character list.
- External library calls (datetime parsing, random shuffling) are abstracted
  as parameters; the control flow around them is translated from the source.
- Machine timestamps are Int seconds.
-/

namespace QBank

/-- A normalized question record as produced by load_all_questions in
src/app.py: composite identifier, system tag, stem text, the ordered
letter-to-text option mapping (E optional), correct letter, explanation. -/
structure Question where
  id : String
  system : String
  question : String
  optionsMap : List (String × Option String)
  answer : String
  explanation : Option String
deriving DecidableEq, Repr

/-- Per-user progress record: four sets of question identifiers, as stored in
the progress worksheet (get_user_progress / save_user_progress). -/
structure Progress where
  used : Finset String
  correct : Finset String
  incorrect : Finset String
  marked : Finset String
deriving DecidableEq

/-- An in-memory test session, the st.session_state.test dict of src/app.py:
question snapshot, answers map, marked set, current index, mode tag, start
timestamp, review flag. -/
structure Session where
  id : String
  questions : List Question
  answers : String → Option String
  marked : Finset String
  index : Nat
  mode : String
  start : Int
  isReview : Bool

/-- Pool filtering as performed on the create-test page of src/app.py:
start from a copy of all questions, narrow by system unless the sentinel
All is selected, then apply each selected status filter in sequence unless
the sentinel All is selected. -/
def filterPool (allQuestions : List Question) (systems : List String)
    (filters : List String) (prog : Progress) : List Question :=
  let pool := allQuestions
  let pool := if "All" ∈ systems then pool
    else pool.filter (fun q => decide (q.system ∈ systems))
  if "All" ∈ filters then pool
  else
    let pool := if "Unused" ∈ filters then
      pool.filter (fun q => decide (q.id ∉ prog.used)) else pool
    let pool := if "Correct" ∈ filters then
      pool.filter (fun q => decide (q.id ∈ prog.correct)) else pool
    let pool := if "Incorrect" ∈ filters then
      pool.filter (fun q => decide (q.id ∈ prog.incorrect)) else pool
    if "Marked" ∈ filters then
      pool.filter (fun q => decide (q.id ∈ prog.marked)) else pool

/-- One iteration of the review-page score and progress loop of src/app.py:
the question id is added to used; on a match the correct counter grows, the
id is added to correct and removed from incorrect; otherwise the id is added
to incorrect and removed from correct. -/
def scoreStep (answers : String → Option String) (acc : Progress × Nat)
    (q : Question) : Progress × Nat :=
  let prog := acc.1
  let prog1 := { prog with used := insert q.id prog.used }
  if answers q.id = some q.answer then
    ({ prog1 with
       correct := insert q.id prog1.correct,
       incorrect := prog1.incorrect.erase q.id }, acc.2 + 1)
  else
    ({ prog1 with
       incorrect := insert q.id prog1.incorrect,
       correct := prog1.correct.erase q.id }, acc.2)

/-- The review page of src/app.py folds the score loop over the session
questions and then unions the session marked set into the stored marked set;
the second component is the correct-answer count. -/
def reviewUpdate (t : Session) (prog : Progress) : Progress × Nat :=
  let r := t.questions.foldl (scoreStep t.answers) (prog, 0)
  ({ r.1 with marked := r.1.marked ∪ t.marked }, r.2)

/-- The review-page percentage: correct over total times 100 when the total
is positive, else 0, as in score_percent of src/app.py. -/
def reviewScorePercent (t : Session) (prog : Progress) : ℚ :=
  let correct := (reviewUpdate t prog).2
  let total := t.questions.length
  if 0 < total then (correct : ℚ) / (total : ℚ) * 100 else 0

/-- The test-page mark and unmark buttons of src/app.py: remove the current
question id from the in-memory session marked set when present, else add it;
the stored Progress record is not involved at all. -/
def toggleMark (t : Session) (qid : String) : Session :=
  if qid ∈ t.marked then { t with marked := t.marked.erase qid }
  else { t with marked := insert qid t.marked }

/-- The test-page mark button as a step on the pair of the in-memory session
and the stored Progress record: only the session component changes. -/
def markButton (t : Session) (prog : Progress) (qid : String) :
    Session × Progress :=
  (toggleMark t qid, prog)

/-- save_current_answer of src/app.py: when a choice text is selected, find
the first option letter whose text equals the choice and record it under the
current question id; otherwise leave the answers map unchanged. -/
def save_current_answer (q : Question) (choice : Option String)
    (t : Session) : Session :=
  match choice with
  | none => t
  | some c =>
    match q.optionsMap.find? (fun p => p.2 == some c) with
    | some p =>
      { t with answers := fun x => if x = q.id then some p.1 else t.answers x }
    | none => t

/-- calculate_total_test_time of src/app.py: 90 seconds per question. -/
def calculate_total_test_time (numQuestions : Nat) : Nat :=
  numQuestions * 90

/-- Result of one timer update: elapsed and remaining seconds and the
time-up flag. -/
structure TimerResult where
  elapsed : Int
  remaining : Int
  timeUp : Bool
deriving DecidableEq, Repr

/-- update_timer of src/app.py: in Test mode, elapsed is now minus start,
remaining is the nonnegative part of the total budget minus elapsed, and the
time-up flag is raised when remaining is at most 0 for a non-review session;
otherwise nothing happens. -/
def update_timer (t : Session) (now : Int) : TimerResult :=
  if t.mode = "Test" then
    let elapsed := now - t.start
    let total_time : Int := calculate_total_test_time t.questions.length
    let remaining := max 0 (total_time - elapsed)
    { elapsed := elapsed, remaining := remaining,
      timeUp := decide (remaining ≤ 0) && !t.isReview }
  else
    { elapsed := 0, remaining := 0, timeUp := false }

/-- The time-up branch at the top of the test page of src/app.py: for a
non-review Test-mode session, when the timer reports time up, the current
answer is saved and the page moves to review, completing the session; the
returned flag records the completion transition. -/
def testPageTick (t : Session) (now : Int) (q : Question)
    (choice : Option String) : Session × Bool :=
  if t.mode = "Test" ∧ t.isReview = false then
    if (update_timer t now).timeUp then (save_current_answer q choice t, true)
    else (t, false)
  else (t, false)

/-- A navigation action on the test page: the Previous button, the Next or
Finish button, or the jump-to selectbox choosing a 1-based question
number. -/
inductive NavAction where
  | prev : NavAction
  | next : NavAction
  | jump (sel : Nat) : NavAction
deriving DecidableEq, Repr

/-- The navigation buttons of the test page of src/app.py. Previous is
disabled at index 0 and otherwise saves the current answer and decrements the
index. Next saves the answer and increments the index, except at the last
index where the page moves to review, completing the session (flag true).
The jump selectbox offers the 1-based numbers 1..length and sets the index to
the chosen number minus 1 when it differs from the current index. -/
def navStep (t : Session) (q : Question) (choice : Option String) :
    NavAction → Session × Bool
  | NavAction.prev =>
    if t.index = 0 then (t, false)
    else
      let t1 := save_current_answer q choice t
      ({ t1 with index := t1.index - 1 }, false)
  | NavAction.next =>
    let t1 := save_current_answer q choice t
    if t1.index < t1.questions.length - 1 then
      ({ t1 with index := t1.index + 1 }, false)
    else (t1, true)
  | NavAction.jump sel =>
    if sel - 1 ≠ t.index then
      let t1 := save_current_answer q choice t
      ({ t1 with index := sel - 1 }, false)
    else (t, false)

/-- Model of the external random.sample call of the create page: the
randomness of the library is abstracted as an arbitrary permutation
(shuffled) of the pool, and sampling k questions without replacement takes
the first k elements of it. -/
def random_sample (shuffled : List Question) (k : Nat) : List Question :=
  shuffled.take k

/-- The Start Test button of the create page of src/app.py: when the pool
holds fewer questions than requested an error is shown and no session is
created; otherwise a session is built from random.sample of the pool with
index 0, empty answers and empty marked set. -/
def startTest (shuffled : List Question) (tid : String)
    (pool : List Question) (numQ : Nat) (mode : String) (now : Int) :
    Option Session :=
  if pool.length < numQ then none
  else some
    { id := tid,
      questions := random_sample shuffled (min numQ pool.length),
      answers := fun _ => none, marked := ∅, index := 0, mode := mode,
      start := now, isReview := false }

/-- A raw source record of the question JSON files, each field possibly
missing. -/
structure RawRecord where
  id : Option String
  system : Option String
  stem : Option String
  choice_a : Option String
  choice_b : Option String
  choice_c : Option String
  choice_d : Option String
  choice_e : Option String
  correct_answer : Option String
  explanation : Option String
deriving DecidableEq, Repr

/-- Normalization of one raw record inside load_all_questions of src/app.py:
composite identifier from system and local id, the A-E option map with E
optional, answer and question copied from correct_answer and stem. A missing
required field raises, modeled as none. -/
def parseRecord (r : RawRecord) : Option Question :=
  match r.id, r.system, r.stem, r.choice_a, r.choice_b, r.choice_c,
      r.choice_d, r.correct_answer with
  | some i, some sys, some stem, some a, some b, some c, some d, some ans =>
    some
      { id := sys ++ "_" ++ i, system := sys, question := stem,
        optionsMap := [("A", some a), ("B", some b), ("C", some c),
          ("D", some d), ("E", r.choice_e)],
        answer := ans, explanation := r.explanation }
  | _, _, _, _, _, _, _, _ => none

/-- Processing of one JSON file by load_all_questions of src/app.py: records
are normalized and appended in order until the first malformed record, whose
exception aborts the remainder of that file. -/
def loadFile : List RawRecord → List Question
  | [] => []
  | r :: rest =>
    match parseRecord r with
    | some q => q :: loadFile rest
    | none => []

/-- load_all_questions of src/app.py: the files are processed in order into
one shared accumulator; an exception in one file does not stop the loop over
the other files. -/
def load_all_questions (files : List (List RawRecord)) : List Question :=
  files.foldl (fun qs f => qs ++ loadFile f) []

/-- A stored test row as rebuilt by get_user_tests of src/app.py. -/
structure TestRecord where
  username : String
  testId : String
  created : String
  mode : String
  totalQuestions : Nat
  score : Nat
  completed : Bool
deriving DecidableEq, Repr

/-- A double or single quote character, the characters stripped from the
ends of a stored date string by get_sortable_date. -/
def isQuoteChar (c : Char) : Bool :=
  c = '"' || c = Char.ofNat 39

/-- The Python strip of quote characters from both ends of a string. -/
def stripQuotes (s : String) : String :=
  String.mk (((s.data.dropWhile isQuoteChar).reverse.dropWhile
    isQuoteChar).reverse)

/-- The strptime format list tried by get_sortable_date of src/app.py. -/
def date_formats : List String :=
  ["%Y-%m-%d %H:%M:%S.%f", "%Y-%m-%d %H:%M:%S", "%Y-%m-%d",
   "%m/%d/%Y %H:%M:%S", "%m/%d/%Y"]

/-- The strptime fallback loop of get_sortable_date: the first format that
parses wins; when every format fails the minimum datetime is returned,
encoded as 0. The external datetime.strptime is abstracted as strp. -/
def tryFormats (strp : String → String → Option Nat) (s : String) :
    List String → Nat
  | [] => 0
  | f :: fs =>
    match strp f s with
    | some t => t
    | none => tryFormats strp s fs

/-- get_sortable_date of src/app.py: strip surrounding quotes, try ISO
parsing with Z normalized to an explicit offset, then the strptime formats,
and fall back to the minimum datetime (encoded 0) when nothing parses.
Datetimes are encoded as Nat offsets from datetime.min, so parsing never
fails and unparseable strings get the least key. The external
datetime.fromisoformat is abstracted as iso. -/
def get_sortable_date (iso : String → Option Nat)
    (strp : String → String → Option Nat) (createdStr : String) : Nat :=
  let s := stripQuotes createdStr
  match iso (s.replace "Z" "+00:00") with
  | some t => t
  | none => tryFormats strp s date_formats

/-- Stable descending insertion by key: the new element goes before the
first strictly smaller key, matching the order produced by the stable
Python sorted with reverse set. -/
def insertDesc (key : TestRecord → Nat) (x : TestRecord) :
    List TestRecord → List TestRecord
  | [] => [x]
  | y :: ys =>
    if key y < key x then x :: y :: ys else y :: insertDesc key x ys

/-- Stable descending sort by key. -/
def sortDesc (key : TestRecord → Nat) :
    List TestRecord → List TestRecord
  | [] => []
  | x :: xs => insertDesc key x (sortDesc key xs)

/-- get_user_tests of src/app.py restricted to what the history claims
need: keep the rows of the user and sort them by get_sortable_date, most
recent first. -/
def get_user_tests (iso : String → Option Nat)
    (strp : String → String → Option Nat) (username : String)
    (rows : List TestRecord) : List TestRecord :=
  sortDesc (fun r => get_sortable_date iso strp r.created)
    (rows.filter (fun r => r.username == username))

/-- Python string slicing text[:n] on the character sequence. -/
def strTake (s : String) (n : Nat) : String :=
  String.mk (s.data.take n)

/-- The per-question slice of the serialized test_data blob written by
save_test_session of src/app.py. -/
structure StoredQuestion where
  id : String
  question : String
  answer : String
  explanation : String
deriving DecidableEq, Repr

/-- The question snapshot stored by save_test_session of src/app.py: prompt
and explanation are cut to their first 500 characters when longer. -/
def serializeQuestion (q : Question) : StoredQuestion :=
  { id := q.id,
    question :=
      if 500 < q.question.length then strTake q.question 500
      else q.question,
    answer := q.answer,
    explanation :=
      match q.explanation with
      | none => ""
      | some e => if e ≠ "" ∧ 500 < e.length then strTake e 500 else e }

/-- The session-restore path of the home page of src/app.py: a stored
question id is resolved against the live question store, and when it no
longer resolves a placeholder question is built from the stored (possibly
truncated) text with a generic option set. -/
def restoreQuestion (db : List Question) (sq : StoredQuestion) : Question :=
  match db.find? (fun oq => oq.id == sq.id) with
  | some oq => oq
  | none =>
    { id := sq.id, system := "Unknown", question := sq.question,
      optionsMap := [("A", some "Option A"), ("B", some "Option B"),
        ("C", some "Option C"), ("D", some "Option D")],
      answer := sq.answer, explanation := some sq.explanation }

/-- Concrete question fixture used by witnesses. -/
def qX1 : Question :=
  { id := "sys_1", system := "sys", question := "stem one",
    optionsMap := [("A", some "alpha"), ("B", some "beta")],
    answer := "A", explanation := none }

/-- Concrete question fixture used by witnesses. -/
def qX2 : Question :=
  { id := "sys_2", system := "sys", question := "stem two",
    optionsMap := [("A", some "alpha"), ("B", some "beta")],
    answer := "B", explanation := none }

/-- Concrete question fixture used by witnesses. -/
def qX3 : Question :=
  { id := "sys_3", system := "sys", question := "stem three",
    optionsMap := [("A", some "alpha"), ("B", some "beta")],
    answer := "B", explanation := none }

/-- Concrete answers fixture: sys_1 answered A (correct), sys_2 answered A
(incorrect), nothing else answered. -/
def ansW : String → Option String :=
  fun x => if x = "sys_1" then some "A" else
    if x = "sys_2" then some "A" else none

/-- Concrete Reading-mode session fixture. -/
def sessW : Session :=
  { id := "test-1", questions := [qX1, qX2], answers := ansW,
    marked := {"sys_1"}, index := 0, mode := "Reading", start := 0,
    isReview := false }

/-- Concrete stored-progress fixture: sys_2 previously answered
correctly. -/
def progW : Progress :=
  { used := {"sys_2"}, correct := {"sys_2"}, incorrect := ∅, marked := ∅ }

/-- Concrete Test-mode session fixture with a 180-second budget. -/
def sessTimerW : Session :=
  { id := "test-2", questions := [qX1, qX2], answers := fun _ => none,
    marked := ∅, index := 1, mode := "Test", start := 0, isReview := false }

/-- Concrete three-question session fixture for navigation. -/
def sessNavW : Session :=
  { id := "test-3", questions := [qX1, qX2, qX3], answers := fun _ => none,
    marked := ∅, index := 1, mode := "Reading", start := 0,
    isReview := false }

/-- Malformed raw record fixture: the system field is missing. -/
def badRecW : RawRecord :=
  { id := some "7", system := none, stem := some "stem bad",
    choice_a := some "a", choice_b := some "b", choice_c := some "c",
    choice_d := some "d", choice_e := none, correct_answer := some "A",
    explanation := none }

/-- Well-formed raw record fixture. -/
def goodRecW : RawRecord :=
  { id := some "8", system := some "sys", stem := some "stem good",
    choice_a := some "a", choice_b := some "b", choice_c := some "c",
    choice_d := some "d", choice_e := none, correct_answer := some "B",
    explanation := some "because" }

/-- A 501-character string fixture. -/
def longStrW : String :=
  String.mk (List.replicate 501 'x')

/-- Question fixture whose prompt and explanation exceed 500 characters. -/
def qLongW : Question :=
  { id := "sys_9", system := "sys", question := longStrW,
    optionsMap := [("A", some "alpha"), ("B", some "beta")],
    answer := "A", explanation := some longStrW }

/-- Concrete pool fixture. -/
def poolW : List Question := [qX1, qX2]

/-- Concrete shuffled-pool fixture, a permutation of poolW. -/
def shufW : List Question := [qX2, qX1]

/-- The marked set is untouched by the score loop. -/
lemma scoreFold_marked (answers : String → Option String)
    (qs : List Question) (acc : Progress × Nat) :
    (qs.foldl (scoreStep answers) acc).1.marked = acc.1.marked := by
  induction qs generalizing acc with
  | nil => rfl
  | cons q rest ih =>
    rw [List.foldl_cons, ih]
    simp only [scoreStep]
    split <;> rfl

/-- The correct counter accumulated by the score loop counts exactly the
questions whose recorded answer equals their correct letter. -/
lemma scoreFold_count (answers : String → Option String)
    (qs : List Question) (acc : Progress × Nat) :
    (qs.foldl (scoreStep answers) acc).2 =
      acc.2 + (qs.filter (fun q => decide (answers q.id = some q.answer))).length := by
  induction qs generalizing acc with
  | nil => simp
  | cons q rest ih =>
    rw [List.foldl_cons, ih]
    by_cases h : answers q.id = some q.answer <;>
      simp [scoreStep, h, List.filter_cons] <;> omega

/-- Membership in the used set survives the score loop. -/
lemma scoreFold_used_mono (answers : String → Option String)
    (qs : List Question) (acc : Progress × Nat) (x : String)
    (hx : x ∈ acc.1.used) :
    x ∈ (qs.foldl (scoreStep answers) acc).1.used := by
  induction qs generalizing acc with
  | nil => exact hx
  | cons q rest ih =>
    rw [List.foldl_cons]
    apply ih
    by_cases h : answers q.id = some q.answer <;>
      simp [scoreStep, h, Finset.mem_insert_of_mem hx]

/-- Identifiers not named by any remaining question keep their correct and
incorrect membership through the score loop. -/
lemma scoreFold_preserve (answers : String → Option String)
    (qs : List Question) (acc : Progress × Nat) (x : String)
    (hx : ∀ q ∈ qs, q.id ≠ x) :
    ((x ∈ (qs.foldl (scoreStep answers) acc).1.correct ↔ x ∈ acc.1.correct) ∧
     (x ∈ (qs.foldl (scoreStep answers) acc).1.incorrect ↔ x ∈ acc.1.incorrect)) := by
  induction qs generalizing acc with
  | nil => exact ⟨Iff.rfl, Iff.rfl⟩
  | cons q rest ih =>
    have hq : q.id ≠ x := hx q (List.mem_cons_self q rest)
    have hxr : x ≠ q.id := fun h => hq h.symm
    rw [List.foldl_cons]
    have step := ih (scoreStep answers acc q) (fun qr hqr => hx qr (List.mem_cons_of_mem q hqr))
    refine ⟨step.1.trans ?_, step.2.trans ?_⟩ <;>
      by_cases h : answers q.id = some q.answer <;>
        simp [scoreStep, h, Finset.mem_insert, Finset.mem_erase, hxr]

/-- After the score loop, every processed question id is in used, and is in
correct or incorrect exactly according to the recorded answer, the opposite
set having been cleared of it. -/
lemma scoreFold_mem_spec (answers : String → Option String)
    (qs : List Question) (hnd : (qs.map Question.id).Nodup)
    (q : Question) (hq : q ∈ qs) (acc : Progress × Nat) :
    q.id ∈ (qs.foldl (scoreStep answers) acc).1.used ∧
    (answers q.id = some q.answer →
      q.id ∈ (qs.foldl (scoreStep answers) acc).1.correct ∧
      q.id ∉ (qs.foldl (scoreStep answers) acc).1.incorrect) ∧
    (answers q.id ≠ some q.answer →
      q.id ∈ (qs.foldl (scoreStep answers) acc).1.incorrect ∧
      q.id ∉ (qs.foldl (scoreStep answers) acc).1.correct) := by
  induction qs generalizing acc with
  | nil => cases hq
  | cons q0 rest ih =>
    rw [List.map_cons, List.nodup_cons] at hnd
    obtain ⟨hnotin, hndr⟩ := hnd
    rcases List.mem_cons.mp hq with rfl | hqr
    · have hrest : ∀ qr ∈ rest, qr.id ≠ q.id := by
        intro qr hqr heq
        exact hnotin (heq ▸ List.mem_map_of_mem Question.id hqr)
      rw [List.foldl_cons]
      have pres := scoreFold_preserve answers rest (scoreStep answers acc q) q.id hrest
      have husd : q.id ∈ (scoreStep answers acc q).1.used := by
        by_cases h : answers q.id = some q.answer <;>
          simp [scoreStep, h]
      refine ⟨scoreFold_used_mono answers rest _ q.id husd, ?_, ?_⟩
      · intro h
        refine ⟨pres.1.mpr ?_, fun hmem => ?_⟩
        · simp [scoreStep, h]
        · have := pres.2.mp hmem
          simp [scoreStep, h] at this
      · intro h
        refine ⟨pres.2.mpr ?_, fun hmem => ?_⟩
        · simp [scoreStep, h]
        · have := pres.1.mp hmem
          simp [scoreStep, h] at this
    · rw [List.foldl_cons]
      exact ih hndr hqr (scoreStep answers acc q0)

/-- C1: after the review-page Complete update, every question id of the
session is in used, is in correct or incorrect exactly according to whether
the recorded answer equals the correct letter with the opposite set cleared
of it, and no session question id is in both correct and incorrect. -/
theorem complete_progress_spec (t : Session) (prog : Progress)
    (hnd : (t.questions.map Question.id).Nodup) :
    ∀ q ∈ t.questions,
      q.id ∈ (reviewUpdate t prog).1.used ∧
      (t.answers q.id = some q.answer →
        q.id ∈ (reviewUpdate t prog).1.correct ∧
        q.id ∉ (reviewUpdate t prog).1.incorrect) ∧
      (t.answers q.id ≠ some q.answer →
        q.id ∈ (reviewUpdate t prog).1.incorrect ∧
        q.id ∉ (reviewUpdate t prog).1.correct) ∧
      ¬(q.id ∈ (reviewUpdate t prog).1.correct ∧
        q.id ∈ (reviewUpdate t prog).1.incorrect) := by
  intro q hq
  have base := scoreFold_mem_spec t.answers t.questions hnd q hq (prog, 0)
  have hused : (reviewUpdate t prog).1.used =
      (t.questions.foldl (scoreStep t.answers) (prog, 0)).1.used := rfl
  have hcor : (reviewUpdate t prog).1.correct =
      (t.questions.foldl (scoreStep t.answers) (prog, 0)).1.correct := rfl
  have hinc : (reviewUpdate t prog).1.incorrect =
      (t.questions.foldl (scoreStep t.answers) (prog, 0)).1.incorrect := rfl
  rw [hused, hcor, hinc]
  refine ⟨base.1, base.2.1, base.2.2, ?_⟩
  by_cases h : t.answers q.id = some q.answer
  · intro hcontra
    exact (base.2.1 h).2 hcontra.2
  · intro hcontra
    exact (base.2.2 h).2 hcontra.1

/-- C5: the review-page percentage equals the count of questions whose
recorded answer letter matches the correct letter, divided by the total and
scaled to 100, and it is 0 when the session has no questions. -/
theorem score_percent_spec (t : Session) (prog : Progress) :
    reviewScorePercent t prog =
      if t.questions.length = 0 then 0
      else ((t.questions.filter
              (fun q => decide (t.answers q.id = some q.answer))).length : ℚ)
            / (t.questions.length : ℚ) * 100 := by
  unfold reviewScorePercent reviewUpdate
  rcases Nat.eq_zero_or_pos t.questions.length with h | h
  · simp [h]
  · have hne : t.questions.length ≠ 0 := Nat.pos_iff_ne_zero.mp h
    simp only [h, if_pos, hne, if_neg]
    rw [scoreFold_count]
    simp

/-- C10: the stored marked set never shrinks: the review-page Complete update
only unions the session marked set into it, and toggling a question to
unmarked during a session changes only the in-memory session set, leaving the
stored Progress record untouched. -/
theorem marked_never_shrinks (t : Session) (prog : Progress) (qid : String) :
    prog.marked ⊆ (reviewUpdate t prog).1.marked ∧
    (markButton t prog qid).2 = prog := by
  constructor
  · have h : (reviewUpdate t prog).1.marked =
        (t.questions.foldl (scoreStep t.answers) (prog, 0)).1.marked ∪ t.marked := rfl
    rw [h, scoreFold_marked]
    exact Finset.subset_union_left
  · rfl

/-- Witness for complete_progress_spec at a concrete session. -/
theorem complete_progress_spec_witness :
    (sessW.questions.map Question.id).Nodup ∧ qX1 ∈ sessW.questions ∧
    (qX1.id ∈ (reviewUpdate sessW progW).1.used ∧
      (sessW.answers qX1.id = some qX1.answer →
        qX1.id ∈ (reviewUpdate sessW progW).1.correct ∧
        qX1.id ∉ (reviewUpdate sessW progW).1.incorrect) ∧
      (sessW.answers qX1.id ≠ some qX1.answer →
        qX1.id ∈ (reviewUpdate sessW progW).1.incorrect ∧
        qX1.id ∉ (reviewUpdate sessW progW).1.correct) ∧
      ¬(qX1.id ∈ (reviewUpdate sessW progW).1.correct ∧
        qX1.id ∈ (reviewUpdate sessW progW).1.incorrect)) :=
  ⟨by decide, by decide,
    complete_progress_spec sessW progW (by decide) qX1 (by decide)⟩

/-- C2: in Test mode the timer computes remaining as the nonnegative part of
the 90-seconds-per-question budget minus elapsed, and when remaining reaches
0 for a non-review session the test page saves the current answer and
completes the session regardless of the current index. -/
theorem tick_spec (t : Session) (now : Int) (q : Question)
    (choice : Option String)
    (hmode : t.mode = "Test") (hrev : t.isReview = false) :
    (update_timer t now).remaining =
      max 0 ((t.questions.length : Int) * 90 - (now - t.start)) ∧
    ((update_timer t now).remaining = 0 →
      testPageTick t now q choice = (save_current_answer q choice t, true)) := by
  constructor
  · simp only [update_timer, hmode, if_pos, calculate_total_test_time]
    push_cast
    rfl
  · intro h0
    have htu : (update_timer t now).timeUp = true := by
      simp only [update_timer, hmode, if_pos, hrev] at h0 ⊢
      simp [h0]
    simp [testPageTick, hmode, hrev, htu]

/-- Witness for tick_spec: with two questions the budget is 180 seconds, and
at 181 elapsed seconds the remaining time is 0 and the tick completes the
session. -/
theorem tick_spec_witness :
    sessTimerW.mode = "Test" ∧ sessTimerW.isReview = false ∧
    (update_timer sessTimerW 181).remaining = 0 ∧
    testPageTick sessTimerW 181 qX2 none =
      (save_current_answer qX2 none sessTimerW, true) :=
  ⟨rfl, rfl, by decide,
    (tick_spec sessTimerW 181 qX2 none rfl rfl).2 (by decide)⟩

/-- The answer-saving helper leaves the question list unchanged. -/
lemma save_current_answer_questions (q : Question) (choice : Option String)
    (t : Session) :
    (save_current_answer q choice t).questions = t.questions := by
  cases choice with
  | none => rfl
  | some c =>
    simp only [save_current_answer]
    cases h : q.optionsMap.find? (fun p => p.2 == some c) <;> simp [h]

/-- The answer-saving helper leaves the index unchanged. -/
lemma save_current_answer_index (q : Question) (choice : Option String)
    (t : Session) :
    (save_current_answer q choice t).index = t.index := by
  cases choice with
  | none => rfl
  | some c =>
    simp only [save_current_answer]
    cases h : q.optionsMap.find? (fun p => p.2 == some c) <;> simp [h]

/-- C3: the index stays in bounds after every navigation action; Previous at
index 0 leaves the session unchanged; Next at the last index completes the
session without moving the index; a jump only ever targets the offered
1-based numbers, so it only sets indices inside the question list. -/
theorem navigate_bounds (t : Session) (q : Question) (choice : Option String)
    (a : NavAction) (hidx : t.index < t.questions.length)
    (hjump : ∀ sel, a = NavAction.jump sel →
      1 ≤ sel ∧ sel ≤ t.questions.length) :
    (navStep t q choice a).1.index < (navStep t q choice a).1.questions.length ∧
    (a = NavAction.prev → t.index = 0 → navStep t q choice a = (t, false)) ∧
    (a = NavAction.next → t.index = t.questions.length - 1 →
      (navStep t q choice a).2 = true ∧
      (navStep t q choice a).1.index = t.index) := by
  cases a with
  | prev =>
    by_cases h0 : t.index = 0
    · refine ⟨?_, ?_, ?_⟩
      · simp only [navStep, h0, if_pos]
        omega
      · intro _ _
        simp [navStep, h0]
      · intro hc
        exact NavAction.noConfusion hc
    · refine ⟨?_, ?_, ?_⟩
      · simp [navStep, h0, save_current_answer_questions,
          save_current_answer_index]
        omega
      · intro _ hc
        exact absurd hc h0
      · intro hc
        exact NavAction.noConfusion hc
  | next =>
    have hq := save_current_answer_questions q choice t
    have hi := save_current_answer_index q choice t
    by_cases h : t.index < t.questions.length - 1
    · refine ⟨?_, ?_, ?_⟩
      · simp [navStep, hq, hi, h]
        omega
      · intro hc
        exact NavAction.noConfusion hc
      · intro _ hlast
        omega
    · refine ⟨?_, ?_, ?_⟩
      · simp [navStep, hq, hi, h, hidx]
      · intro hc
        exact NavAction.noConfusion hc
      · intro _ _
        simp [navStep, hq, hi, h]
  | jump sel =>
    obtain ⟨h1, h2⟩ := hjump sel rfl
    refine ⟨?_, ?_, ?_⟩
    · by_cases heq : sel - 1 = t.index
      · simp [navStep, heq, hidx]
      · simp [navStep, heq, save_current_answer_questions]
        omega
    · intro hc
      exact NavAction.noConfusion hc
    · intro hc
      exact NavAction.noConfusion hc

/-- Witness for navigate_bounds: jumping to question 3 of a three-question
session keeps the index in bounds. -/
theorem navigate_bounds_witness :
    sessNavW.index < sessNavW.questions.length ∧
    (navStep sessNavW qX2 none (NavAction.jump 3)).1.index <
      (navStep sessNavW qX2 none (NavAction.jump 3)).1.questions.length :=
  ⟨by decide,
    (navigate_bounds sessNavW qX2 none (NavAction.jump 3) (by decide)
      (fun sel h => by
        injection h with h2
        subst h2
        exact ⟨by decide, by decide⟩)).1⟩

/-- C6: Pool Filter called with selectedCategories containing All and
selectedStatusFilters containing All returns the full input question list
unchanged; the source builds the result from a fresh copy of the input, so
the inputs are not mutated. -/
theorem filterPool_all_identity (allQuestions : List Question)
    (systems filters : List String) (prog : Progress)
    (hsys : "All" ∈ systems) (hfil : "All" ∈ filters) :
    filterPool allQuestions systems filters prog = allQuestions := by
  simp [filterPool, hsys, hfil]

/-- Witness for filterPool_all_identity at a concrete input. -/
theorem filterPool_all_identity_witness :
    ("All" ∈ ["All", "Cardiology"]) ∧ ("All" ∈ ["All", "Unused"]) ∧
    filterPool
      [{ id := "cardio_1", system := "Cardiology", question := "Q1",
         optionsMap := [("A", some "a"), ("B", some "b")], answer := "A",
         explanation := none }]
      ["All", "Cardiology"] ["All", "Unused"]
      { used := {"cardio_1"}, correct := ∅, incorrect := ∅, marked := ∅ } =
      [{ id := "cardio_1", system := "Cardiology", question := "Q1",
         optionsMap := [("A", some "a"), ("B", some "b")], answer := "A",
         explanation := none }] :=
  ⟨by decide, by decide,
    filterPool_all_identity _ _ _ _ (by decide) (by decide)⟩

/-- C4 counterexample: with a one-question pool and a request for two
questions, Start refuses with an error and creates no session, instead of
silently capping the session at the pool size. -/
theorem startTest_refuses_counterexample :
    startTest [qX1] "t-cap" [qX1] 2 "Reading" 0 = none := by
  rfl

/-- C4 amended: when the requested count is at most the pool size, Start
creates a session whose questions are a without-replacement sample of
exactly count distinct questions from the pool, with index 0, empty answers
and empty marked set; when the count exceeds the pool size the button
refuses with an error and no session is created. -/
theorem startTest_spec (shuffled : List Question) (tid : String)
    (pool : List Question) (numQ : Nat) (mode : String) (now : Int)
    (hperm : shuffled.Perm pool) (hcount : numQ ≤ pool.length)
    (hnd : pool.Nodup) :
    ∃ s, startTest shuffled tid pool numQ mode now = some s ∧
      s.questions.length = numQ ∧ s.questions.Nodup ∧
      (∀ q ∈ s.questions, q ∈ pool) ∧ s.index = 0 ∧
      (∀ x, s.answers x = none) ∧ s.marked = ∅ := by
  have hnlt : ¬pool.length < numQ := Nat.not_lt.mpr hcount
  refine ⟨{ id := tid,
            questions := random_sample shuffled (min numQ pool.length),
            answers := fun _ => none, marked := ∅, index := 0, mode := mode,
            start := now, isReview := false },
    ?_, ?_, ?_, ?_, rfl, fun x => rfl, rfl⟩
  · simp [startTest, hnlt]
  · have hlen : shuffled.length = pool.length := hperm.length_eq
    simp only [random_sample, List.length_take, hlen]
    omega
  · exact List.Nodup.sublist (List.take_sublist _ _) (hperm.symm.nodup hnd)
  · intro q hq
    exact hperm.subset (List.take_subset _ _ hq)

/-- Witness for startTest_spec at a concrete two-question pool. -/
theorem startTest_spec_witness :
    shufW.Perm poolW ∧ 1 ≤ poolW.length ∧ poolW.Nodup ∧
    ∃ s, startTest shufW "t-w" poolW 1 "Reading" 0 = some s ∧
      s.questions.length = 1 ∧ s.questions.Nodup ∧
      (∀ q ∈ s.questions, q ∈ poolW) ∧ s.index = 0 ∧
      (∀ x, s.answers x = none) ∧ s.marked = ∅ :=
  ⟨List.Perm.swap qX1 qX2 [], by decide, by decide,
    startTest_spec shufW "t-w" poolW 1 "Reading" 0
      (List.Perm.swap qX1 qX2 []) (by decide) (by decide)⟩

/-- C7 counterexample: the second record of the file is well-formed, yet the
load returns nothing, because the exception raised by the first, malformed
record aborts the rest of that file. -/
theorem load_skip_counterexample :
    (parseRecord goodRecW).isSome = true ∧
    load_all_questions [[badRecW, goodRecW]] = [] := by
  exact ⟨rfl, rfl⟩

/-- Each file contributes exactly its longest parseable prefix. -/
lemma loadFile_takeWhile (f : List RawRecord) :
    loadFile f = (f.takeWhile
      (fun r => (parseRecord r).isSome)).filterMap parseRecord := by
  induction f with
  | nil => rfl
  | cons r rest ih =>
    cases h : parseRecord r with
    | some q =>
      simp [loadFile, h, List.takeWhile_cons, ih, List.filterMap_cons]
    | none => simp [loadFile, h, List.takeWhile_cons]

/-- The load loop threads one accumulator through the files by
concatenation. -/
lemma load_foldl_append (files : List (List RawRecord))
    (init : List Question) :
    files.foldl (fun qs f => qs ++ loadFile f) init =
      init ++ (files.map loadFile).join := by
  induction files generalizing init with
  | nil => simp
  | cons f fs ih => simp [ih, List.append_assoc]

/-- C7 amended: a malformed record is skipped together with the remainder of
its own file, while records before it in that file and all other files are
still loaded: the result is exactly the concatenation, file by file, of each
longest well-formed prefix; in particular a malformed record never aborts
the load of the other files. -/
theorem load_malformed_spec (files : List (List RawRecord)) :
    load_all_questions files =
      (files.map (fun f => (f.takeWhile
        (fun r => (parseRecord r).isSome)).filterMap parseRecord)).join := by
  have hfun : loadFile = fun f => (f.takeWhile
      (fun r => (parseRecord r).isSome)).filterMap parseRecord :=
    funext loadFile_takeWhile
  rw [load_all_questions, load_foldl_append, hfun]
  simp

/-- Inserting into a descending-sorted list keeps it a permutation of the
element consed on the list. -/
lemma insertDesc_perm (key : TestRecord → Nat) (x : TestRecord) :
    ∀ l : List TestRecord, (insertDesc key x l).Perm (x :: l)
  | [] => by simp [insertDesc]
  | y :: ys => by
    by_cases h : key y < key x
    · simp [insertDesc, h]
    · simp only [insertDesc, h, if_neg]
      exact ((insertDesc_perm key x ys).cons y).trans (List.Perm.swap x y ys)

/-- Inserting into a descending-sorted list keeps it descending-sorted. -/
lemma insertDesc_pairwise (key : TestRecord → Nat) (x : TestRecord) :
    ∀ l : List TestRecord,
      l.Pairwise (fun a b => key b ≤ key a) →
      (insertDesc key x l).Pairwise (fun a b => key b ≤ key a)
  | [], _ => by simp [insertDesc]
  | y :: ys, h => by
    rw [List.pairwise_cons] at h
    show List.Pairwise _
      (if key y < key x then x :: y :: ys else y :: insertDesc key x ys)
    by_cases hk : key y < key x
    · rw [if_pos hk, List.pairwise_cons]
      constructor
      · intro z hz
        rcases List.mem_cons.mp hz with rfl | hz2
        · exact Nat.le_of_lt hk
        · exact le_trans (h.1 z hz2) (Nat.le_of_lt hk)
      · rw [List.pairwise_cons]
        exact h
    · rw [if_neg hk, List.pairwise_cons]
      constructor
      · intro z hz
        have hz3 := (insertDesc_perm key x ys).mem_iff.mp hz
        rcases List.mem_cons.mp hz3 with rfl | hz4
        · exact Nat.not_lt.mp hk
        · exact h.1 z hz4
      · exact insertDesc_pairwise key x ys h.2

/-- The descending sort is a permutation of its input. -/
lemma sortDesc_perm (key : TestRecord → Nat) :
    ∀ l : List TestRecord, (sortDesc key l).Perm l
  | [] => List.Perm.refl []
  | x :: xs =>
    (insertDesc_perm key x (sortDesc key xs)).trans
      ((sortDesc_perm key xs).cons x)

/-- The descending sort is pairwise descending by key. -/
lemma sortDesc_pairwise (key : TestRecord → Nat) :
    ∀ l : List TestRecord,
      (sortDesc key l).Pairwise (fun a b => key b ≤ key a)
  | [] => List.Pairwise.nil
  | x :: xs => insertDesc_pairwise key x _ (sortDesc_pairwise key xs)

/-- When every strptime format fails, the fallback loop returns the minimum
datetime, encoded 0. -/
lemma tryFormats_none (strp : String → String → Option Nat) (s : String) :
    ∀ fs : List String, (∀ f ∈ fs, strp f s = none) →
      tryFormats strp s fs = 0
  | [], _ => rfl
  | f :: fs, h => by
    have h1 : strp f s = none := h f (List.mem_cons_self f fs)
    simp only [tryFormats, h1]
    exact tryFormats_none strp s fs
      (fun g hg => h g (List.mem_cons_of_mem f hg))

/-- C8: the history listing is a permutation of the rows of the user, sorted
newest-first by the parsed creation timestamp; parsing is total, a string no
accepted format parses gets the minimum key 0, and every record placed after
a minimum-key record also has the minimum key, so unparseable records sort
last. -/
theorem listHistory_spec (iso : String → Option Nat)
    (strp : String → String → Option Nat) (u : String)
    (rows : List TestRecord) :
    (get_user_tests iso strp u rows).Perm
      (rows.filter (fun r => r.username == u)) ∧
    (get_user_tests iso strp u rows).Pairwise (fun a b =>
      get_sortable_date iso strp b.created ≤
        get_sortable_date iso strp a.created) ∧
    (∀ s, iso ((stripQuotes s).replace "Z" "+00:00") = none →
      (∀ f ∈ date_formats, strp f (stripQuotes s) = none) →
      get_sortable_date iso strp s = 0) ∧
    (∀ init a tail, get_user_tests iso strp u rows = init ++ a :: tail →
      get_sortable_date iso strp a.created = 0 →
      ∀ b ∈ tail, get_sortable_date iso strp b.created = 0) := by
  refine ⟨sortDesc_perm _ _, sortDesc_pairwise _ _, ?_, ?_⟩
  · intro s hiso hstrp
    simp only [get_sortable_date, hiso]
    exact tryFormats_none strp (stripQuotes s) date_formats hstrp
  · intro init a tail heq h0 b hb
    have hp : (get_user_tests iso strp u rows).Pairwise (fun a b =>
        get_sortable_date iso strp b.created ≤
          get_sortable_date iso strp a.created) :=
      sortDesc_pairwise _ _
    rw [heq, List.pairwise_append] at hp
    have hab := (List.pairwise_cons.mp hp.2.1).1 b hb
    rw [h0] at hab
    exact Nat.le_zero.mp hab

/-- Witness for listHistory_spec: with parsers that reject everything, a
garbage date string gets the minimum sort key. -/
theorem listHistory_spec_witness :
    ((fun _ => (none : Option Nat))
      ((stripQuotes "garbage").replace "Z" "+00:00") = none) ∧
    get_sortable_date (fun _ => none) (fun _ _ => none) "garbage" = 0 :=
  ⟨rfl,
    (listHistory_spec (fun _ => none) (fun _ _ => none) "u" []).2.2.1
      "garbage" rfl (fun f _ => rfl)⟩

/-- Slicing caps the character count at n. -/
lemma strTake_length (s : String) (n : Nat) :
    (strTake s n).length = min n s.length :=
  List.length_take n s.data

/-- C9: the stored blob keeps at most the first 500 characters of the prompt
and of the explanation, so for a question whose prompt or explanation
exceeds 500 characters a restore through the placeholder path cannot
reproduce the original text. -/
theorem truncation_spec (q : Question) (db : List Question)
    (hmiss : ∀ oq ∈ db, oq.id ≠ q.id) :
    (serializeQuestion q).question.length ≤ 500 ∧
    (serializeQuestion q).explanation.length ≤ 500 ∧
    (500 < q.question.length →
      (restoreQuestion db (serializeQuestion q)).question ≠ q.question) ∧
    (∀ e, q.explanation = some e → 500 < e.length →
      (restoreQuestion db (serializeQuestion q)).explanation ≠
        q.explanation) := by
  have hfind : db.find? (fun oq => oq.id == q.id) = none := by
    rw [List.find?_eq_none]
    intro x hx
    simp only [beq_iff_eq]
    exact hmiss x hx
  refine ⟨?_, ?_, ?_, ?_⟩
  · by_cases h : 500 < q.question.length
    · have h2 : (serializeQuestion q).question = strTake q.question 500 := by
        simp [serializeQuestion, h]
      rw [h2, strTake_length]
      omega
    · have h2 : (serializeQuestion q).question = q.question := by
        simp [serializeQuestion, h]
      rw [h2]
      omega
  · cases he : q.explanation with
    | none =>
      have h2 : (serializeQuestion q).explanation = "" := by
        simp [serializeQuestion, he]
      rw [h2]
      decide
    | some e =>
      by_cases hc : e ≠ "" ∧ 500 < e.length
      · have h2 : (serializeQuestion q).explanation = strTake e 500 := by
          simp only [serializeQuestion, he]
          rw [if_pos hc]
        rw [h2, strTake_length]
        omega
      · have h2 : (serializeQuestion q).explanation = e := by
          simp only [serializeQuestion, he]
          rw [if_neg hc]
        rw [h2]
        by_cases he0 : e = ""
        · subst he0
          decide
        · exact Nat.not_lt.mp (fun hlt => hc ⟨he0, hlt⟩)
  · intro hlen heq
    have hq2 : (restoreQuestion db (serializeQuestion q)).question =
        strTake q.question 500 := by
      simp [restoreQuestion, serializeQuestion, hfind, hlen]
    rw [hq2] at heq
    have hl := congrArg String.length heq
    rw [strTake_length] at hl
    omega
  · intro e he hlen heq
    have hne : e ≠ "" := by
      intro h0
      subst h0
      exact absurd hlen (by decide)
    have hser : (serializeQuestion q).explanation = strTake e 500 := by
      simp only [serializeQuestion, he]
      rw [if_pos ⟨hne, hlen⟩]
    have hexp : (restoreQuestion db (serializeQuestion q)).explanation =
        some (strTake e 500) := by
      simp [restoreQuestion, serializeQuestion, hfind, hser]
      simp only [he]
      rw [if_pos ⟨hne, hlen⟩]
    rw [hexp, he] at heq
    have hl := congrArg String.length (Option.some.inj heq)
    rw [strTake_length] at hl
    omega

/-- The long fixture string has 501 characters. -/
lemma longStrW_length : longStrW.length = 501 :=
  List.length_replicate 501 'x'

/-- Witness for truncation_spec at a 501-character prompt. -/
theorem truncation_spec_witness :
    500 < qLongW.question.length ∧
    (restoreQuestion [] (serializeQuestion qLongW)).question ≠
      qLongW.question :=
  ⟨by
    show 500 < longStrW.length
    rw [longStrW_length]
    omega,
    (truncation_spec qLongW []
      (fun oq h => absurd h (List.not_mem_nil oq))).2.2.1
      (by
        show 500 < longStrW.length
        rw [longStrW_length]
        omega)⟩

end QBank
